import Mathlib

/-!
Shallow embedding of the `game-boy-link-online` repository:
  * `game-boy-link-driver/src/controller.rs`  — Console-side bit engine
  * `game-boy-link-driver/src/peripheral.rs`  — Peripheral-side bit engine
  * `game-boy-link-online-rpi/src/printer.rs` — printer protocol FSM, RLE
    decoder and the Peripheral-role event loop

Machine integers are modelled as `Nat` with explicit `% 256` where the
Rust `u8` shift truncates, and `% 65536` where `u16` addition wraps.
Rust panics (overflow checks, out-of-bounds indexing) are modelled as a
distinct `panic` result, never as an `Err`.
-/

namespace GBLink

/-- Capacity of the `ArrayDeque<[u8; BUF_LEN], Wrapping>` ring buffers
(`BUF_LEN = 2048` in `lib.rs`). A wrapping push on a full deque evicts the
oldest element. -/
def BUF_LEN : Nat := 2048

/-- Model of `ArrayDeque<_, Wrapping>::push_back`: once full, a newly pushed byte
evicts the oldest. -/
def dequePush (q : List Nat) (b : Nat) : List Nat :=
  if q.length < BUF_LEN then q ++ [b] else q.tail ++ [b]

/-! ## Console bit engine (`controller.rs`) -/

/-- State of `Controller` (the pin handles aside): `high` is the phase flag,
`gb_sin`/`gb_sout` the shift registers, `gb_bit` the bit counter,
`send_buf` the outbound byte queue. -/
structure Controller where
  high : Bool
  gb_sin : Nat
  gb_sout : Nat
  gb_bit : Nat
  send_buf : List Nat
deriving DecidableEq, Repr

/-- The two output lines the Console engine drives (SCK and SOUT). -/
structure CtrlBus where
  sck : Bool
  sout : Bool
deriving DecidableEq, Repr

/-- Translation of `Controller::new`: `high = true`, registers zero, queue empty. -/
def Controller.new : Controller :=
  { high := true, gb_sin := 0, gb_sout := 0, gb_bit := 0, send_buf := [] }

/-- Lines 44-55 of `controller.rs`: when `gb_bit == 0`, pop the send queue
into `gb_sout`; `none` models the early `return Ok(None)` taken when the
queue is empty (after `gb_sout = 0`). -/
def Controller.load? (c : Controller) : Option Controller :=
  if c.gb_bit = 0 then
    match c.send_buf with
    | [] => none
    | b :: rest => some { c with gb_sout := b, send_buf := rest }
  else some c

/-- Translation of `Controller::send`, one half-bit tick. `sin` is the level read from the
SIN input pin. Returns the new engine state, the new output-pin levels, and
the completed byte, if any. -/
def Controller.send (c : Controller) (bus : CtrlBus) (sin : Bool) :
    Controller × CtrlBus × Option Nat :=
  match c.load? with
  | none => ({ c with gb_sout := 0 }, bus, none)
  | some c =>
    if c.high then
      ({ c with high := !c.high },
       { bus with sout := decide (c.gb_sout &&& 0x80 > 0), sck := false },
       none)
    else
      let gb_sin := c.gb_sin ||| (if sin then 1 else 0)
      let gb_bit := c.gb_bit + 1
      if gb_bit < 8 then
        ({ c with gb_sout := (c.gb_sout <<< 1) % 256,
                  gb_sin := (gb_sin <<< 1) % 256,
                  gb_bit := gb_bit, high := !c.high },
         { bus with sck := true }, none)
      else
        ({ c with gb_sin := 0, gb_bit := 0, high := !c.high },
         { bus with sck := true }, some gb_sin)

/-- Operations a caller can perform on a `Controller`: one `send` tick
(with the current SIN level), or a `push_back` through the `DerefMut` to
the send queue. -/
inductive CtrlOp
| tick (sin : Bool)
| push (b : Nat)
deriving DecidableEq, Repr

/-- Run a sequence of Console-engine operations from a given state. -/
def Controller.runOps : Controller → CtrlBus → List CtrlOp → Controller × CtrlBus
| c, bus, [] => (c, bus)
| c, bus, .tick sin :: rest =>
  let r := c.send bus sin
  Controller.runOps r.1 r.2.1 rest
| c, bus, .push b :: rest =>
  Controller.runOps { c with send_buf := dequePush c.send_buf b } bus rest

/-- Run `send` over a list of SIN input levels, collecting the results. -/
def Controller.runSend : Controller → CtrlBus → List Bool → Controller × CtrlBus × List (Option Nat)
| c, bus, [] => (c, bus, [])
| c, bus, sin :: rest =>
  let r := c.send bus sin
  let t := Controller.runSend r.1 r.2.1 rest
  (t.1, t.2.1, r.2.2 :: t.2.2)

/-! ## Peripheral bit engine (`peripheral.rs`) -/

/-- State of `Peripheral` (pin handles aside). `gb_sin` is the outbound
shift register (drives SIN), `gb_sout` the inbound accumulator (sampled
from SOUT), `recv_buf` the response queue the FSM pushes to. -/
structure Peripheral where
  gb_sin : Nat
  gb_sout : Nat
  gb_bit : Nat
  recv_buf : List Nat
deriving DecidableEq, Repr

/-- The one output line the Peripheral engine drives (SIN). -/
structure PeriphBus where
  sin : Bool
deriving DecidableEq, Repr

/-- Translation of `Peripheral::new`: registers zero, queue empty. -/
def Peripheral.new : Peripheral :=
  { gb_sin := 0, gb_sout := 0, gb_bit := 0, recv_buf := [] }

/-- Lines 42-50 of `peripheral.rs`: when `gb_bit == 0`, pop the response
queue into `gb_sin`, or zero it when the queue is empty. -/
def Peripheral.load (p : Peripheral) : Peripheral :=
  if p.gb_bit = 0 then
    match p.recv_buf with
    | [] => { p with gb_sin := 0 }
    | b :: rest => { p with gb_sin := b, recv_buf := rest }
  else p

/-- Translation of `Peripheral::recv`, called once per observed SCK edge. `sck` and `sout`
are the levels read from the SCK and SOUT input pins. Returns the new
engine state, the driven SIN level, and the completed byte, if any. -/
def Peripheral.recv (p : Peripheral) (bus : PeriphBus) (sck sout : Bool) :
    Peripheral × PeriphBus × Option Nat :=
  let p := p.load
  if sck then
    (p, { bus with sin := decide (p.gb_sin &&& 0x80 > 0) }, none)
  else
    let gb_sout := p.gb_sout ||| (if sout then 1 else 0)
    let gb_bit := p.gb_bit + 1
    if gb_bit < 8 then
      ({ p with gb_sin := (p.gb_sin <<< 1) % 256,
                gb_sout := (gb_sout <<< 1) % 256,
                gb_bit := gb_bit },
       bus, none)
    else
      ({ p with gb_sout := 0, gb_bit := 0 }, bus, some gb_sout)

/-- Translation of `Peripheral::reset`: zero the shift registers and bit counter, drain
the response queue. -/
def Peripheral.reset (p : Peripheral) : Peripheral :=
  { p with gb_sin := 0, gb_sout := 0, gb_bit := 0, recv_buf := [] }

/-- Operations a caller can perform on a `Peripheral`: one `recv` (with
the current SCK and SOUT levels), a `push_back` through the `DerefMut` to
the response queue, or a `reset`. -/
inductive PeriphOp
| edge (sck sout : Bool)
| push (b : Nat)
| reset
deriving DecidableEq, Repr

/-- Run a sequence of Peripheral-engine operations from a given state. -/
def Peripheral.runOps : Peripheral → PeriphBus → List PeriphOp → Peripheral × PeriphBus
| p, bus, [] => (p, bus)
| p, bus, .edge sck sout :: rest =>
  let r := p.recv bus sck sout
  Peripheral.runOps r.1 r.2.1 rest
| p, bus, .push b :: rest =>
  Peripheral.runOps { p with recv_buf := dequePush p.recv_buf b } bus rest
| p, bus, .reset :: rest =>
  Peripheral.runOps p.reset bus rest

/-- Run `recv` over a list of (SCK, SOUT) input levels, collecting the
results. -/
def Peripheral.runRecv : Peripheral → PeriphBus → List (Bool × Bool) →
    Peripheral × PeriphBus × List (Option Nat)
| p, bus, [] => (p, bus, [])
| p, bus, (sck, sout) :: rest =>
  let r := p.recv bus sck sout
  let t := Peripheral.runRecv r.1 r.2.1 rest
  (t.1, t.2.1, r.2.2 :: t.2.2)

/-! ## Printer protocol FSM (`printer.rs`) -/

/-- The constant `PRINTER_MAGIC_0`. -/
def PRINTER_MAGIC_0 : Nat := 0x88

/-- The constant `PRINTER_MAGIC_1`. -/
def PRINTER_MAGIC_1 : Nat := 0x33

/-- The enumeration `PrintCommand` (`#[repr(u8)]`: Init=0x01, Print=0x02, Data=0x04,
Status=0x0F). -/
inductive PrintCommand
| Init
| Print
| Data
| Status
deriving DecidableEq, Repr

/-- Derived `PrintCommand::from_u8`. -/
def PrintCommand.from_u8 (b : Nat) : Option PrintCommand :=
  if b = 0x01 then some .Init
  else if b = 0x02 then some .Print
  else if b = 0x04 then some .Data
  else if b = 0x0F then some .Status
  else none

/-- The enumeration `PrintCompression` (`#[repr(u8)]`: Uncompressed=0x00, Compressed=0x01). -/
inductive PrintCompression
| Uncompressed
| Compressed
deriving DecidableEq, Repr

/-- Derived `PrintCompression::from_u8`. -/
def PrintCompression.from_u8 (b : Nat) : Option PrintCompression :=
  if b = 0x00 then some .Uncompressed
  else if b = 0x01 then some .Compressed
  else none

/-- Model of `u16::from_le_bytes([lo, hi])`; exact for `lo, hi < 256`, which the
Rust `u8` arguments guarantee. -/
def fromLeBytes (lo hi : Nat) : Nat := lo ||| (hi <<< 8)

/-- The FSM state `PrinterState`: one constructor per protocol position, with the carried
fields of the source. `len` and `index` are the `u16` fields, `payload` the
`Vec<u8>`. -/
inductive PrinterState
| Magic0
| Magic1
| Cmd
| Compression (cmd : PrintCommand)
| LenLow (cmd : PrintCommand) (compression : PrintCompression)
| LenHigh (cmd : PrintCommand) (compression : PrintCompression) (len_low : Nat)
| Data (cmd : PrintCommand) (compression : PrintCompression)
    (len index : Nat) (payload : List Nat)
| CheckSum0 (cmd : PrintCommand) (compression : PrintCompression)
    (payload : List Nat)
| CheckSum1 (cmd : PrintCommand) (compression : PrintCompression)
    (payload : List Nat) (checksum0 : Nat)
| Keepalive (cmd : PrintCommand) (compression : PrintCompression)
    (payload : List Nat) (checksum checksum_expected : Nat)
    (checksum_error : Bool)
| Status (cmd : PrintCommand) (compression : PrintCompression)
    (payload : List Nat) (checksum checksum_expected : Nat)
    (checksum_error : Bool)
| Done (cmd : PrintCommand) (compression : PrintCompression)
    (payload : List Nat) (checksum checksum_expected : Nat)
    (checksum_error : Bool)
deriving DecidableEq, Repr

/-- Result of `PrinterState::transition`: `ok`/`err` mirror
`Result<Self, Box<dyn Error>>`; `panic` models a Rust panic (out-of-bounds
`Vec` indexing, or `u16` underflow under debug overflow checks) — a panic
aborts, it is not an `Err`. -/
inductive TransResult
| ok (s : PrinterState)
| err (msg : String)
| panic
deriving DecidableEq, Repr

/-- Translation of `PrinterState::transition` (lines 81-259 of `printer.rs`). -/
def PrinterState.transition : PrinterState → Nat → TransResult
| .Magic0, input =>
  if input = PRINTER_MAGIC_0 then .ok .Magic1 else .ok .Magic0
| .Magic1, input =>
  if input = PRINTER_MAGIC_1 then .ok .Cmd else .ok .Magic0
| .Cmd, input =>
  match PrintCommand.from_u8 input with
  | some cmd => .ok (.Compression cmd)
  | none => .err "Unknown command. Expected one of 0x01, 0x02, 0x04, or 0x0F."
| .Compression cmd, input =>
  match PrintCompression.from_u8 input with
  | some compression => .ok (.LenLow cmd compression)
  | none => .err "Unknown compression type. Expected 0x00 or 0x01."
| .LenLow cmd compression, input => .ok (.LenHigh cmd compression input)
| .LenHigh cmd compression len_low, input =>
  let len := fromLeBytes len_low input
  let payload := List.replicate len 0
  if len > 0 then .ok (.Data cmd compression len len payload)
  else .ok (.CheckSum0 cmd compression payload)
| .Data cmd compression len index payload, input =>
  -- `payload[(len - index) as usize] = input; let index = index - 1;`:
  -- `len - index` underflows for `index > len`, the indexing is out of
  -- bounds for `len - index ≥ payload.len()`, and `index - 1` underflows
  -- for `index = 0`; each of those is a panic.
  if index ≤ len ∧ len - index < payload.length ∧ 1 ≤ index then
    let payload := payload.set (len - index) input
    let index := index - 1
    if index > 0 then .ok (.Data cmd compression len index payload)
    else .ok (.CheckSum0 cmd compression payload)
  else .panic
| .CheckSum0 cmd compression payload, input =>
  .ok (.CheckSum1 cmd compression payload input)
| .CheckSum1 cmd compression payload checksum0, input =>
  let checksum := payload.foldl (fun acc byte => (acc + byte) % 65536) 0
  let checksum_expected := fromLeBytes checksum0 input
  .ok (.Keepalive cmd compression payload checksum checksum_expected
        (checksum == checksum_expected))
| .Keepalive cmd compression payload checksum checksum_expected checksum_error,
    input =>
  if input = 0x0 then
    .ok (.Status cmd compression payload checksum checksum_expected
          checksum_error)
  else .err "Unknown keepalive byte. Expected 0x00."
| .Status cmd compression payload checksum checksum_expected checksum_error,
    input =>
  if input = 0x0 then
    .ok (.Done cmd compression payload checksum checksum_expected
          checksum_error)
  else .err "Unknown status byte. Expected 0x00."
| .Done _ _ _ _ _ _, _ =>
  .err "Printer packet is already in its final state"

/-- Fold `transition` over a byte sequence, stopping at the first error
or panic (in the event loop the `?` operator propagates the error). -/
def foldTransition (s : PrinterState) : List Nat → TransResult
| [] => .ok s
| b :: rest =>
  match s.transition b with
  | .ok s' => foldTransition s' rest
  | r => r

/-! ## RLE decoder (`decompress_data`, lines 299-333 of `printer.rs`) -/

/-- The bitwise complement of a `usize` value: `!x` on 64 bits. -/
def usizeNot (x : Nat) : Nat := x ^^^ (2 ^ 64 - 1)

/-- The repeat-run length expression of the source,
`!(!run_byte | (1 << 7)) + 2` in `usize` arithmetic. -/
def repeatRunLen (run_byte : Nat) : Nat :=
  usizeNot (usizeNot run_byte ||| (1 <<< 7)) + 2

/-- Translation of `decompress_data`: decode the repeat/literal run encoding. The source
loops over an iterator appending to an output vector; this recursion emits
each decoded run in front of the decoding of the rest, producing the same
list. -/
def decompress_data : List Nat → Except String (List Nat)
| [] => .ok []
| run_byte :: rest =>
  if run_byte >>> 7 = 1 then
    match rest with
    | repeated_byte :: rest2 =>
      match decompress_data rest2 with
      | .ok tail => .ok (List.replicate (repeatRunLen run_byte) repeated_byte ++ tail)
      | .error e => .error e
    | [] => .error "Repeat byte not found in compressed run."
  else
    let run_len := run_byte + 1
    if run_len ≤ rest.length then
      match decompress_data (rest.drop run_len) with
      | .ok tail => .ok (rest.take run_len ++ tail)
      | .error e => .error e
    else .error "Not enough bytes found in uncompressed run."
termination_by l => l.length
decreasing_by
· simp; omega
· simp [List.length_drop]; omega

/-! ## Event loop, Peripheral role (`main_loop`, lines 335-442 of
`printer.rs`) -/

/-- The byte `PrinterAlive::Alive`. -/
def ALIVE : Nat := 0x81

/-- Result of handling one received byte: the new FSM state together with
the response bytes pushed into the engine's queue, or a surfaced error, or
a panic. -/
inductive StepRes
| ok (printer : PrinterState) (responses : List Nat)
| err (msg : String)
| panic
deriving DecidableEq, Repr

/-- Lines 403-433 of `printer.rs`: run `transition` on the received byte
and perform the response injection on the state entered: entering
`Keepalive` pushes `0x81`; entering `Status` pushes
`PrinterStatus::CHECKSUM_ERROR` (bit 0x01) when `checksum_error` is set,
else `PrinterStatus::OK` (0x00); entering `Done` re-arms the FSM to
`Magic0` and decompresses a compressed payload (whose failure surfaces). -/
def printerStep (printer : PrinterState) (byte : Nat) : StepRes :=
  match printer.transition byte with
  | .err e => .err e
  | .panic => .panic
  | .ok s' =>
    match s' with
    | .Keepalive _ _ _ _ _ _ => .ok s' [ALIVE]
    | .Status _ _ _ _ _ checksum_error =>
      .ok s' [if checksum_error then 0x01 else 0x00]
    | .Done _ compression payload _ _ _ =>
      match compression with
      | .Compressed =>
        match decompress_data payload with
        | .ok _ => .ok .Magic0 []
        | .error e => .err e
      | .Uncompressed => .ok .Magic0 []
    | _ => .ok s' []

/-- Feed a sequence of received bytes through `printerStep`, accumulating
the engine's response queue (pushed with the wrapping deque push). In
`StepRes.ok` the second field is the final queue contents. -/
def feedLoop : PrinterState → List Nat → List Nat → StepRes
| printer, queue, [] => .ok printer queue
| printer, queue, b :: rest =>
  match printerStep printer b with
  | .ok printer' resp => feedLoop printer' (resp.foldl dequePush queue) rest
  | .err e => .err e
  | .panic => .panic

/-- The state held across iterations of `main_loop`: the Peripheral engine
and its driven SIN level, the mirrored SCK level (`AtomicSck`), the FSM
value, and the debouncer memory (`last_line_event_type`, `true` = rising). -/
structure LoopState where
  periph : Peripheral
  bus : PeriphBus
  sck : Bool
  printer : PrinterState
  lastEventType : Option Bool
deriving DecidableEq, Repr

/-- Result of one `main_loop` iteration. -/
inductive LoopRes
| ok (st : LoopState)
| err (msg : String)
| panic
deriving DecidableEq, Repr

/-- Helper for `loopBody`: the un-debounced tail of the iteration. -/
def loopEdge (st : LoopState) (eventRising : Bool) (soutLevel : Bool) :
    LoopRes :=
  let sck := eventRising
  let r := st.periph.recv st.bus sck soutLevel
  let st := { st with periph := r.1, bus := r.2.1, sck := sck }
  match r.2.2 with
  | none => .ok st
  | some byte =>
    match printerStep st.printer byte with
    | .ok printer' resp =>
      .ok { st with printer := printer',
                    periph := { st.periph with
                      recv_buf := resp.foldl dequePush st.periph.recv_buf } }
    | .err e => .err e
    | .panic => .panic

/-- The part of a `main_loop` iteration from the debounce check on:
debounce the edge, update the mirrored SCK level, run `recv`, and on a
completed byte run `printerStep`, pushing its response bytes into the
engine's queue. `eventRising` is the edge direction, `soutLevel` the level
currently on the SOUT line. -/
def loopBody (st : LoopState) (eventRising : Bool) (soutLevel : Bool) :
    LoopRes :=
  match st.lastEventType with
  | some llet =>
    if llet = eventRising then .ok st
    else loopEdge { st with lastEventType := some eventRising } eventRising soutLevel
  | none =>
    loopEdge { st with lastEventType := some eventRising } eventRising soutLevel

/-- One iteration of `main_loop` (lines 364-435): if more than one second
elapsed since the previous edge, `reset()` the engine (the FSM value is
not touched there); then debounce and process the edge. -/
def loopIter (st : LoopState) (elapsedSecs : Nat) (eventRising : Bool)
    (soutLevel : Bool) : LoopRes :=
  let st := if elapsedSecs > 1 then { st with periph := st.periph.reset } else st
  loopBody st eventRising soutLevel

/-! ## Auxiliary definitions used by the statements -/

/-- Whether a transition result is an `Err` (a panic is not an `Err`). -/
def TransResult.isErr : TransResult → Bool
| .err _ => true
| _ => false

/-- The components of `Peripheral.recv` that the inbound byte stream
depends on: the `(gb_sout, gb_bit)` pair, stepped by one `recv` call. -/
def coreStep : Nat × Nat → Bool × Bool → (Nat × Nat) × Option Nat
| (g, bit), (sck, sout) =>
  if sck then ((g, bit), none)
  else
    let g' := g ||| (if sout then 1 else 0)
    let bit' := bit + 1
    if bit' < 8 then (((g' <<< 1) % 256, bit'), none)
    else ((0, 0), some g')

/-- Iterate `coreStep`, collecting the results. -/
def coreRun : Nat × Nat → List (Bool × Bool) → (Nat × Nat) × List (Option Nat)
| gb, [] => (gb, [])
| gb, i :: rest =>
  let r := coreStep gb i
  let t := coreRun r.1 rest
  (t.1, r.2 :: t.2)

/-- Eight SCK high/low pairs, SOUT holding bits `b7..b0` MSB-first (one
bit per pair, so the low-phase call of pair `i` samples bit `7 - i`). -/
def bitPairs (b7 b6 b5 b4 b3 b2 b1 b0 : Bool) : List (Bool × Bool) :=
  [(true, b7), (false, b7), (true, b6), (false, b6),
   (true, b5), (false, b5), (true, b4), (false, b4),
   (true, b3), (false, b3), (true, b2), (false, b2),
   (true, b1), (false, b1), (true, b0), (false, b0)]

/-- The structural invariant of the FSM's `Data` state: the remaining
count is between 1 and the declared length, and the payload buffer has
exactly the declared length. -/
def stateInv : PrinterState → Prop
| .Data _ _ len index payload => 1 ≤ index ∧ index ≤ len ∧ payload.length = len
| _ => True

/-! ## Theorems -/

/-- C1: for the minimal Init packet
`[0x88, 0x33, 0x01, 0x00, 0x00, 0x00, 0x01, 0x00, 0x00, 0x00]`
(`checksum_expected = 1`, `checksum_actual = 0`), the event loop leaves
`[0x81, 0x00]` in the response queue, not `[0x81, 0x01]`: the code sets
`checksum_error` when the checksums are *equal*, so a mismatching packet
is acknowledged with status `0x00`. The second conjunct exhibits the
`Keepalive` state reached after the checksum bytes: actual `0`, expected
`1`, yet `checksum_error = false`. -/
theorem C1_code_eval :
    (feedLoop .Magic0 [] [0x88, 0x33, 0x01, 0x00, 0x00, 0x00, 0x01, 0x00, 0x00, 0x00]
      = .ok .Magic0 [0x81, 0x00])
    ∧ (foldTransition .Magic0 [0x88, 0x33, 0x01, 0x00, 0x00, 0x00, 0x01, 0x00]
      = .ok (.Keepalive .Init .Uncompressed [] 0 1 false)) := by
  constructor <;> rfl

/-- C2: the Console engine pops its send queue whenever `gb_bit = 0`, in
*both* half-phases: starting from a fresh engine with queue
`[0xA5, 0xB6]`, after only two ticks (one drive and one sample phase) the
queue is already empty, the bit counter is `1`, and the shift register
holds `0xB6 <<< 1 = 0x6C` — the second byte was popped during the sample
half of the first bit, clobbering `0xA5`. -/
theorem C2_code_eval :
    ((Controller.runSend { Controller.new with send_buf := [0xA5, 0xB6] }
        ⟨false, false⟩ [false, false]).1.send_buf = [])
    ∧ ((Controller.runSend { Controller.new with send_buf := [0xA5, 0xB6] }
        ⟨false, false⟩ [false, false]).1.gb_bit = 1)
    ∧ ((Controller.runSend { Controller.new with send_buf := [0xA5, 0xB6] }
        ⟨false, false⟩ [false, false]).1.gb_sout = 0x6C) := by
  exact ⟨rfl, rfl, rfl⟩

/-- C3 counterexample: an iteration with elapsed time `2 s > 1 s` resets
the engine but leaves the FSM in `Magic1`; the FSM is not reinitialized to
`Magic0` as the claim requires. -/
theorem C3_cex :
    loopIter
        { periph := { gb_sin := 5, gb_sout := 6, gb_bit := 3, recv_buf := [1, 2] },
          bus := ⟨false⟩, sck := false, printer := .Magic1,
          lastEventType := some true } 2 true false
      = .ok { periph := { gb_sin := 0, gb_sout := 0, gb_bit := 0, recv_buf := [] },
              bus := ⟨false⟩, sck := false, printer := .Magic1,
              lastEventType := some true }
    ∧ PrinterState.Magic1 ≠ PrinterState.Magic0 := by
  constructor
  · rfl
  · intro h
    exact PrinterState.noConfusion h

/-- C3 amended: on an iteration whose elapsed time exceeds one second, the
engine alone is reset (registers zeroed, queue cleared) and the iteration
then proceeds exactly as if no time had elapsed; the FSM value is left
unchanged by the reset step. -/
theorem C3_amended :
    (∀ (st : LoopState) (elapsedSecs : Nat) (eventRising soutLevel : Bool),
      1 < elapsedSecs →
      loopIter st elapsedSecs eventRising soutLevel
        = loopIter { st with periph := st.periph.reset } 0 eventRising soutLevel)
    ∧ (∀ p : Peripheral,
        p.reset = { gb_sin := 0, gb_sout := 0, gb_bit := 0, recv_buf := [] }) := by
  constructor
  · intro st e ev so h
    unfold loopIter
    simp [h]
  · intro p
    rfl

/-- Witness for C3 amended at a concrete state and elapsed time. -/
theorem C3_amended_witness :
    loopIter
        { periph := { gb_sin := 9, gb_sout := 1, gb_bit := 4, recv_buf := [7] },
          bus := ⟨true⟩, sck := true, printer := .Cmd,
          lastEventType := some false } 2 true true
      = loopIter
          { periph := Peripheral.reset
              { gb_sin := 9, gb_sout := 1, gb_bit := 4, recv_buf := [7] },
            bus := ⟨true⟩, sck := true, printer := .Cmd,
            lastEventType := some false } 0 true true :=
  C3_amended.1
    { periph := { gb_sin := 9, gb_sout := 1, gb_bit := 4, recv_buf := [7] },
      bus := ⟨true⟩, sck := true, printer := .Cmd,
      lastEventType := some false } 2 true true (by decide)

/-- Folding `transition` over an appended sequence runs the first part and,
when it did not stop with an error or panic, continues with the second. -/
theorem foldTransition_append (G : List Nat) :
    ∀ (s : PrinterState) (P : List Nat),
      foldTransition s (G ++ P)
        = match foldTransition s G with
          | .ok s' => foldTransition s' P
          | r => r := by
  induction G with
  | nil => intro s P; rfl
  | cons g G ih =>
    intro s P
    simp only [List.cons_append, foldTransition]
    rcases h : s.transition g with s' | e | _ <;> simp only [h]
    · exact ih s' P

/-- C7 counterexample: with the garbage prefix `G = [0x88]` in front of
the well-formed minimal Init packet, the fold from `Magic0` ends in
`Magic0` (the prefix byte consumes the packet's first magic byte), while
the packet alone parses to `Done`: the prefix does affect the outcome. -/
theorem C7_cex :
    foldTransition .Magic0
        ([0x88] ++ [0x88, 0x33, 0x01, 0x00, 0x00, 0x00, 0x01, 0x00, 0x00, 0x00])
      ≠ foldTransition .Magic0
          [0x88, 0x33, 0x01, 0x00, 0x00, 0x00, 0x01, 0x00, 0x00, 0x00] := by
  decide

/-- C7 amended: for every prefix `G` after which the fold from `Magic0`
has returned to `Magic0`, folding over `G` followed by any byte sequence
`P` yields the same result as folding over `P` alone. -/
theorem C7_amended (G P : List Nat)
    (h : foldTransition .Magic0 G = .ok .Magic0) :
    foldTransition .Magic0 (G ++ P) = foldTransition .Magic0 P := by
  rw [foldTransition_append, h]

/-- Witness for C7 amended: a one-byte non-magic prefix before the minimal
Init packet. -/
theorem C7_amended_witness :
    foldTransition .Magic0
        ([0x12] ++ [0x88, 0x33, 0x01, 0x00, 0x00, 0x00, 0x01, 0x00, 0x00, 0x00])
      = foldTransition .Magic0
          [0x88, 0x33, 0x01, 0x00, 0x00, 0x00, 0x01, 0x00, 0x00, 0x00] :=
  C7_amended [0x12] [0x88, 0x33, 0x01, 0x00, 0x00, 0x00, 0x01, 0x00, 0x00, 0x00]
    (by decide)

set_option maxRecDepth 4000 in
/-- For byte-sized run headers the source's `usize` bit fiddling agrees
with plain mask arithmetic: the top bit decides the branch, and
`!(!b | (1 << 7)) + 2 = (b &&& 0x7F) + 2`. -/
theorem byteRunFacts :
    ∀ b < 256, (b &&& 0x80 ≠ 0 ↔ b >>> 7 = 1)
      ∧ repeatRunLen b = (b &&& 0x7F) + 2 := by
  decide

/-- Unfolding of `decompress_data` on a repeat run. -/
theorem decompress_repeat (b v : Nat) (rest : List Nat) (hb : b < 256)
    (hbit : b &&& 0x80 ≠ 0) :
    decompress_data (b :: v :: rest)
      = match decompress_data rest with
        | .ok tail => .ok (List.replicate ((b &&& 0x7F) + 2) v ++ tail)
        | .error e => .error e := by
  have h7 : b >>> 7 = 1 := ((byteRunFacts b hb).1).mp hbit
  have hlen : repeatRunLen b = (b &&& 0x7F) + 2 := (byteRunFacts b hb).2
  rw [decompress_data.eq_def]
  simp only [hlen]
  rw [if_pos h7]

/-- Unfolding of `decompress_data` on a truncated repeat run. -/
theorem decompress_repeat_trunc (b : Nat) (hb : b < 256)
    (hbit : b &&& 0x80 ≠ 0) :
    decompress_data [b] = .error "Repeat byte not found in compressed run." := by
  have h7 : b >>> 7 = 1 := ((byteRunFacts b hb).1).mp hbit
  rw [decompress_data.eq_def]
  simp only []
  rw [if_pos h7]

/-- Unfolding of `decompress_data` on a literal run. -/
theorem decompress_literal (b : Nat) (rest : List Nat) (hb : b < 256)
    (hbit : b &&& 0x80 = 0) (hlen : b + 1 ≤ rest.length) :
    decompress_data (b :: rest)
      = match decompress_data (rest.drop (b + 1)) with
        | .ok tail => .ok (rest.take (b + 1) ++ tail)
        | .error e => .error e := by
  have h7 : ¬ b >>> 7 = 1 := fun hc => ((byteRunFacts b hb).1.mpr hc) hbit
  rw [decompress_data.eq_def]
  simp only [if_neg h7, if_pos hlen]

/-- Unfolding of `decompress_data` on a truncated literal run. -/
theorem decompress_literal_trunc (b : Nat) (rest : List Nat) (hb : b < 256)
    (hbit : b &&& 0x80 = 0) (hlen : rest.length < b + 1) :
    decompress_data (b :: rest)
      = .error "Not enough bytes found in uncompressed run." := by
  have h7 : ¬ b >>> 7 = 1 := fun hc => ((byteRunFacts b hb).1.mpr hc) hbit
  rw [decompress_data.eq_def]
  simp only [if_neg h7, if_neg (by omega : ¬ b + 1 ≤ rest.length)]

/-- Value of `decompress_data` on the empty stream. -/
theorem decompress_nil : decompress_data [] = .ok [] := by
  rw [decompress_data.eq_def]

/-- C6: the RLE decoder appends `(b &&& 0x7F) + 2` copies of the next byte
for a repeat-run header (`b &&& 0x80` set), appends the next `b + 1` bytes
verbatim for a literal-run header, errs exactly when the remaining input
is shorter than the run requires, and decodes the concrete example
`[0x82, 0xAB, 0x01, 0x11, 0x22]` to `[0xAB, 0xAB, 0xAB, 0xAB, 0x11, 0x22]`. -/
theorem C6_decompress :
    (∀ b v rest, b < 256 → b &&& 0x80 ≠ 0 →
      decompress_data (b :: v :: rest)
        = match decompress_data rest with
          | .ok tail => .ok (List.replicate ((b &&& 0x7F) + 2) v ++ tail)
          | .error e => .error e)
    ∧ (∀ b, b < 256 → b &&& 0x80 ≠ 0 →
        decompress_data [b] = .error "Repeat byte not found in compressed run.")
    ∧ (∀ b rest, b < 256 → b &&& 0x80 = 0 → b + 1 ≤ rest.length →
        decompress_data (b :: rest)
          = match decompress_data (rest.drop (b + 1)) with
            | .ok tail => .ok (rest.take (b + 1) ++ tail)
            | .error e => .error e)
    ∧ (∀ b rest, b < 256 → b &&& 0x80 = 0 → rest.length < b + 1 →
        decompress_data (b :: rest)
          = .error "Not enough bytes found in uncompressed run.")
    ∧ decompress_data [0x82, 0xAB, 0x01, 0x11, 0x22]
        = .ok [0xAB, 0xAB, 0xAB, 0xAB, 0x11, 0x22] := by
  refine ⟨decompress_repeat, fun b hb hbit => decompress_repeat_trunc b hb hbit,
    decompress_literal, decompress_literal_trunc, ?_⟩
  rw [decompress_repeat 0x82 0xAB [0x01, 0x11, 0x22] (by norm_num) (by decide)]
  rw [decompress_literal 0x01 [0x11, 0x22] (by norm_num) (by decide) (by simp)]
  have h0 : decompress_data (List.drop (1 + 1) [17, 34]) = .ok [] := decompress_nil
  rw [h0]
  rfl

/-- Witness for C6 at a concrete repeat run. -/
theorem C6_witness :
    decompress_data (0x85 :: 7 :: [])
      = match decompress_data ([] : List Nat) with
        | .ok tail => .ok (List.replicate ((0x85 &&& 0x7F) + 2) 7 ++ tail)
        | .error e => .error e :=
  C6_decompress.1 0x85 7 [] (by decide) (by decide)

/-- C5: `transition` returns an `Err` exactly in the states and on the
bytes the claim lists; in particular a non-matching byte in `Magic0` or
`Magic1` silently resynchronizes to `Magic0`. -/
theorem C5_transition_error_iff :
    (∀ (s : PrinterState) (b : Nat),
      (s.transition b).isErr = true ↔
        (match s with
         | .Cmd => ¬(b = 0x01 ∨ b = 0x02 ∨ b = 0x04 ∨ b = 0x0F)
         | .Compression _ => ¬(b = 0x00 ∨ b = 0x01)
         | .Keepalive _ _ _ _ _ _ => b ≠ 0
         | .Status _ _ _ _ _ _ => b ≠ 0
         | .Done _ _ _ _ _ _ => True
         | _ => False))
    ∧ (∀ b, b ≠ 0x88 → PrinterState.Magic0.transition b = .ok .Magic0)
    ∧ (∀ b, b ≠ 0x33 → PrinterState.Magic1.transition b = .ok .Magic0) := by
  refine ⟨?_, ?_, ?_⟩
  · intro s b
    cases s <;>
      simp only [PrinterState.transition, TransResult.isErr,
        PrintCommand.from_u8, PrintCompression.from_u8,
        PRINTER_MAGIC_0, PRINTER_MAGIC_1] <;>
      (try split_ifs) <;>
      simp_all [TransResult.isErr]
  · intro b h
    simp [PrinterState.transition, PRINTER_MAGIC_0, h]
  · intro b h
    simp [PrinterState.transition, PRINTER_MAGIC_1, h]

/-- Witness for C5: a non-magic byte in `Magic0` resynchronizes. -/
theorem C5_witness :
    PrinterState.Magic0.transition 0x13 = .ok .Magic0 :=
  C5_transition_error_iff.2.1 0x13 (by decide)

/-- The checksum fold of the source computes the 16-bit wrap-around sum. -/
theorem foldl_mod_add (l : List Nat) :
    ∀ a : Nat, l.foldl (fun acc byte => (acc + byte) % 65536) (a % 65536)
      = (a + l.sum) % 65536 := by
  induction l with
  | nil => intro a; simp
  | cons x l ih =>
    intro a
    show l.foldl _ ((a % 65536 + x) % 65536) = _
    rw [Nat.mod_add_mod, ih (a + x), List.sum_cons, ← Nat.add_assoc]

/-- C8: from `CheckSum1` with carried low byte `checksum0` and input `b`
(the high byte), the FSM computes `checksum_expected = (b <<< 8) ||| lo`
and `checksum_actual` as the payload sum mod `2^16`, and moves to
`Keepalive` carrying both. -/
theorem C8_checksum (cmd : PrintCommand) (compression : PrintCompression)
    (payload : List Nat) (checksum0 b : Nat) :
    (PrinterState.CheckSum1 cmd compression payload checksum0).transition b
      = .ok (.Keepalive cmd compression payload (payload.sum % 65536)
            ((b <<< 8) ||| checksum0)
            (payload.sum % 65536 == (b <<< 8) ||| checksum0)) := by
  have hsum : payload.foldl (fun acc byte => (acc + byte) % 65536) 0
      = payload.sum % 65536 := by
    simpa using foldl_mod_add payload 0
  simp only [PrinterState.transition, fromLeBytes, hsum, Nat.lor_comm]

/-- The send-queue load step does not change the bit counter. -/
theorem load?_gb_bit {c c' : Controller} (h : c.load? = some c') :
    c'.gb_bit = c.gb_bit := by
  unfold Controller.load? at h
  by_cases h0 : c.gb_bit = 0
  · rw [if_pos h0] at h
    cases hsb : c.send_buf with
    | nil => rw [hsb] at h; cases h
    | cons x rest =>
      rw [hsb] at h
      injection h with h
      rw [← h]
  · rw [if_neg h0] at h
    injection h with h
    rw [← h]

/-- One Console tick keeps the bit counter below 8. -/
theorem send_gb_bit_lt (c : Controller) (bus : CtrlBus) (sin : Bool)
    (h : c.gb_bit < 8) : ((c.send bus sin).1).gb_bit < 8 := by
  unfold Controller.send
  rcases hl : c.load? with _ | c' <;> simp only [hl]
  · exact h
  · have hb := load?_gb_bit hl
    split
    · show c'.gb_bit < 8
      omega
    · split
      · next hlt => exact hlt
      · show (0 : Nat) < 8
        norm_num

/-- One Peripheral `recv` keeps the bit counter below 8. -/
theorem recv_gb_bit_lt (p : Peripheral) (bus : PeriphBus) (sck sout : Bool)
    (h : p.gb_bit < 8) : ((p.recv bus sck sout).1).gb_bit < 8 := by
  have hload : p.load.gb_bit = p.gb_bit := by
    unfold Peripheral.load
    by_cases h0 : p.gb_bit = 0
    · rw [if_pos h0]
      cases hb : p.recv_buf <;> rfl
    · rw [if_neg h0]
  cases sck <;> simp only [Peripheral.recv] <;>
    simp only [Bool.false_eq_true, if_false, if_true]
  · split
    · next hlt => exact hlt
    · show (0 : Nat) < 8
      norm_num
  · show p.load.gb_bit < 8
    omega

/-- Running any Console operation sequence preserves `gb_bit < 8`. -/
theorem runOps_ctrl_bit :
    ∀ (ops : List CtrlOp) (c : Controller) (bus : CtrlBus),
      c.gb_bit < 8 → ((Controller.runOps c bus ops).1).gb_bit < 8 := by
  intro ops
  induction ops with
  | nil => intro c bus h; exact h
  | cons op rest ih =>
    intro c bus h
    cases op with
    | tick sin =>
      simp only [Controller.runOps]
      exact ih _ _ (send_gb_bit_lt c bus sin h)
    | push b =>
      simp only [Controller.runOps]
      exact ih _ _ h

/-- Running any Peripheral operation sequence preserves `gb_bit < 8`. -/
theorem runOps_periph_bit :
    ∀ (ops : List PeriphOp) (p : Peripheral) (bus : PeriphBus),
      p.gb_bit < 8 → ((Peripheral.runOps p bus ops).1).gb_bit < 8 := by
  intro ops
  induction ops with
  | nil => intro p bus h; exact h
  | cons op rest ih =>
    intro p bus h
    cases op with
    | edge sck sout =>
      simp only [Peripheral.runOps]
      exact ih _ _ (recv_gb_bit_lt p bus sck sout h)
    | push b =>
      simp only [Peripheral.runOps]
      exact ih _ _ h
    | reset =>
      simp only [Peripheral.runOps]
      exact ih _ _ (show (0 : Nat) < 8 by norm_num)

/-- C9: for both engines, `bit_index < 8` is preserved by every single
tick (`send`) and `recv`, and holds after every operation sequence run
from the freshly constructed engine — so it holds before and after every
call of every such sequence. -/
theorem C9_bit_index :
    (∀ (c : Controller) (bus : CtrlBus) (sin : Bool),
      c.gb_bit < 8 → ((c.send bus sin).1).gb_bit < 8)
    ∧ (∀ (p : Peripheral) (bus : PeriphBus) (sck sout : Bool),
      p.gb_bit < 8 → ((p.recv bus sck sout).1).gb_bit < 8)
    ∧ (∀ (bus : CtrlBus) (ops : List CtrlOp),
      ((Controller.runOps Controller.new bus ops).1).gb_bit < 8)
    ∧ (∀ (bus : PeriphBus) (ops : List PeriphOp),
      ((Peripheral.runOps Peripheral.new bus ops).1).gb_bit < 8) :=
  ⟨send_gb_bit_lt, recv_gb_bit_lt,
   fun bus ops => runOps_ctrl_bit ops Controller.new bus (by decide),
   fun bus ops => runOps_periph_bit ops Peripheral.new bus (by decide)⟩

/-- Witness for C9 at a concrete engine state and tick. -/
theorem C9_witness :
    ((Controller.new.send ⟨false, false⟩ false).1).gb_bit < 8
    ∧ ((Peripheral.new.recv ⟨false⟩ false true).1).gb_bit < 8 :=
  ⟨C9_bit_index.1 Controller.new ⟨false, false⟩ false (by decide),
   C9_bit_index.2.1 Peripheral.new ⟨false⟩ false true (by decide)⟩

/-- The inbound components `(gb_sout, gb_bit)` and the returned byte of a
`recv` call depend only on `(gb_sout, gb_bit)` and the sampled levels: the
queue pop touches only the outbound register and the queue. -/
theorem recv_core (p : Peripheral) (bus : PeriphBus) (sck sout : Bool) :
    (((p.recv bus sck sout).1.gb_sout, (p.recv bus sck sout).1.gb_bit),
      (p.recv bus sck sout).2.2) = coreStep (p.gb_sout, p.gb_bit) (sck, sout) := by
  have hl1 : p.load.gb_sout = p.gb_sout := by
    unfold Peripheral.load
    by_cases h0 : p.gb_bit = 0
    · rw [if_pos h0]
      cases hb : p.recv_buf <;> rfl
    · rw [if_neg h0]
  have hl2 : p.load.gb_bit = p.gb_bit := by
    unfold Peripheral.load
    by_cases h0 : p.gb_bit = 0
    · rw [if_pos h0]
      cases hb : p.recv_buf <;> rfl
    · rw [if_neg h0]
  cases sck <;> simp only [Peripheral.recv, coreStep] <;>
    simp only [Bool.false_eq_true, if_false, if_true]
  · rw [hl1, hl2]
    split <;> rfl
  · rw [hl1, hl2]

/-- The run `runRecv` projects to `coreRun` on the inbound components. -/
theorem runRecv_core :
    ∀ (inputs : List (Bool × Bool)) (p : Peripheral) (bus : PeriphBus),
      (((Peripheral.runRecv p bus inputs).1.gb_sout,
        (Peripheral.runRecv p bus inputs).1.gb_bit),
        (Peripheral.runRecv p bus inputs).2.2)
        = coreRun (p.gb_sout, p.gb_bit) inputs := by
  intro inputs
  induction inputs with
  | nil => intro p bus; rfl
  | cons i rest ih =>
    intro p bus
    obtain ⟨sck, sout⟩ := i
    simp only [Peripheral.runRecv, coreRun]
    have hstep := recv_core p bus sck sout
    have hrec := ih (p.recv bus sck sout).1 (p.recv bus sck sout).2.1
    have h1 : (coreStep (p.gb_sout, p.gb_bit) (sck, sout)).1
        = ((p.recv bus sck sout).1.gb_sout, (p.recv bus sck sout).1.gb_bit) :=
      (congrArg Prod.fst hstep).symm
    have h2 : (coreStep (p.gb_sout, p.gb_bit) (sck, sout)).2
        = (p.recv bus sck sout).2.2 :=
      (congrArg Prod.snd hstep).symm
    rw [h1, h2, ← hrec]

/-- The byte assembled by 8 clocked bit pairs, by exhausting the 256 bit
patterns. -/
theorem coreRun_bits (b7 b6 b5 b4 b3 b2 b1 b0 : Bool) :
    coreRun (0, 0) (bitPairs b7 b6 b5 b4 b3 b2 b1 b0)
      = ((0, 0),
         [none, none, none, none, none, none, none, none, none, none, none,
          none, none, none, none,
          some ((if b7 then 128 else 0) + (if b6 then 64 else 0)
            + (if b5 then 32 else 0) + (if b4 then 16 else 0)
            + (if b3 then 8 else 0) + (if b2 then 4 else 0)
            + (if b1 then 2 else 0) + (if b0 then 1 else 0))]) := by
  cases b7 <;> cases b6 <;> cases b5 <;> cases b4 <;> cases b3 <;> cases b2 <;>
    cases b1 <;> cases b0 <;> rfl

/-- C4: from a byte boundary (`gb_bit = 0`, inbound accumulator
`gb_sout = 0`, the other fields arbitrary), eight SCK high/low pairs with
SOUT reading `b7..b0` make `recv` return `none` on every call except the
8th low-phase call, which yields `b7·128 + … + b0`; afterwards the
accumulator and bit counter are `0` again. -/
theorem C4_recv_byte (p : Peripheral) (bus : PeriphBus)
    (b7 b6 b5 b4 b3 b2 b1 b0 : Bool)
    (hbit : p.gb_bit = 0) (hacc : p.gb_sout = 0) :
    ((Peripheral.runRecv p bus (bitPairs b7 b6 b5 b4 b3 b2 b1 b0)).2.2
      = [none, none, none, none, none, none, none, none, none, none, none,
         none, none, none, none,
         some ((if b7 then 128 else 0) + (if b6 then 64 else 0)
           + (if b5 then 32 else 0) + (if b4 then 16 else 0)
           + (if b3 then 8 else 0) + (if b2 then 4 else 0)
           + (if b1 then 2 else 0) + (if b0 then 1 else 0))])
    ∧ (Peripheral.runRecv p bus (bitPairs b7 b6 b5 b4 b3 b2 b1 b0)).1.gb_sout = 0
    ∧ (Peripheral.runRecv p bus (bitPairs b7 b6 b5 b4 b3 b2 b1 b0)).1.gb_bit = 0 := by
  have h := runRecv_core (bitPairs b7 b6 b5 b4 b3 b2 b1 b0) p bus
  rw [hacc, hbit, coreRun_bits] at h
  refine ⟨congrArg Prod.snd h, ?_, ?_⟩
  · have := congrArg (fun q => q.1.1) h
    simpa using this
  · have := congrArg (fun q => q.1.2) h
    simpa using this

/-- Witness for C4: an engine mid-session (nonzero outbound register, a
nonempty response queue) at a byte boundary receives `0xAB` from the bit
pattern `1,0,1,0,1,0,1,1`. -/
theorem C4_witness :
    (Peripheral.runRecv
        { gb_sin := 77, gb_sout := 0, gb_bit := 0, recv_buf := [3, 4] }
        ⟨false⟩ (bitPairs true false true false true false true true)).2.2
      = [none, none, none, none, none, none, none, none, none, none, none,
         none, none, none, none, some 171] :=
  (C4_recv_byte
    { gb_sin := 77, gb_sout := 0, gb_bit := 0, recv_buf := [3, 4] }
    ⟨false⟩ true false true false true false true true rfl rfl).1

/-- A successful `transition` preserves the `Data`-state invariant. -/
theorem transition_inv {s s' : PrinterState} {b : Nat}
    (hs : stateInv s) (h : s.transition b = .ok s') : stateInv s' := by
  cases s with
  | Magic0 =>
    simp only [PrinterState.transition] at h
    split at h <;> (injection h with h; subst h; trivial)
  | Magic1 =>
    simp only [PrinterState.transition] at h
    split at h <;> (injection h with h; subst h; trivial)
  | Cmd =>
    simp only [PrinterState.transition] at h
    rcases hc : PrintCommand.from_u8 b with _ | cmd <;> rw [hc] at h
    · exact TransResult.noConfusion h
    · injection h with h; subst h; trivial
  | Compression cmd =>
    simp only [PrinterState.transition] at h
    rcases hc : PrintCompression.from_u8 b with _ | compression <;> rw [hc] at h
    · exact TransResult.noConfusion h
    · injection h with h; subst h; trivial
  | LenLow cmd compression =>
    simp only [PrinterState.transition] at h
    injection h with h; subst h; trivial
  | LenHigh cmd compression len_low =>
    simp only [PrinterState.transition] at h
    by_cases hpos : fromLeBytes len_low b > 0
    · rw [if_pos hpos] at h
      injection h with h; subst h
      exact ⟨hpos, le_refl _, List.length_replicate _ _⟩
    · rw [if_neg hpos] at h
      injection h with h; subst h; trivial
  | Data cmd compression len index payload =>
    obtain ⟨h1, h2, h3⟩ := hs
    simp only [PrinterState.transition] at h
    by_cases hg : index ≤ len ∧ len - index < payload.length ∧ 1 ≤ index
    · rw [if_pos hg] at h
      by_cases hi : index - 1 > 0
      · rw [if_pos hi] at h
        injection h with h; subst h
        exact ⟨hi, by omega, by rw [List.length_set]; exact h3⟩
      · rw [if_neg hi] at h
        injection h with h; subst h; trivial
    · rw [if_neg hg] at h
      exact TransResult.noConfusion h
  | CheckSum0 cmd compression payload =>
    simp only [PrinterState.transition] at h
    injection h with h; subst h; trivial
  | CheckSum1 cmd compression payload checksum0 =>
    simp only [PrinterState.transition] at h
    injection h with h; subst h; trivial
  | Keepalive cmd compression payload checksum checksum_expected checksum_error =>
    simp only [PrinterState.transition] at h
    split at h
    · injection h with h; subst h; trivial
    · exact TransResult.noConfusion h
  | Status cmd compression payload checksum checksum_expected checksum_error =>
    simp only [PrinterState.transition] at h
    split at h
    · injection h with h; subst h; trivial
    · exact TransResult.noConfusion h
  | Done cmd compression payload checksum checksum_expected checksum_error =>
    exact TransResult.noConfusion h

/-- A successful fold of `transition` preserves the invariant. -/
theorem foldTransition_inv :
    ∀ (l : List Nat) (s s' : PrinterState),
      stateInv s → foldTransition s l = .ok s' → stateInv s' := by
  intro l
  induction l with
  | nil =>
    intro s s' hs h
    injection h with h; subst h; exact hs
  | cons b rest ih =>
    intro s s' hs h
    simp only [foldTransition] at h
    rcases ht : s.transition b with s1 | e | _ <;> rw [ht] at h
    · exact ih s1 s' (transition_inv hs ht) h
    · exact TransResult.noConfusion h
    · exact TransResult.noConfusion h

/-- Under the invariant, no input can make `transition` panic. -/
theorem inv_no_panic {s : PrinterState} (hs : stateInv s) (b : Nat) :
    s.transition b ≠ .panic := by
  cases s with
  | Data cmd compression len index payload =>
    obtain ⟨h1, h2, h3⟩ := hs
    simp only [PrinterState.transition]
    rw [if_pos (show index ≤ len ∧ len - index < payload.length ∧ 1 ≤ index
      by omega)]
    split <;> exact fun hc => TransResult.noConfusion hc
  | Cmd =>
    simp only [PrinterState.transition]
    rcases PrintCommand.from_u8 b with _ | cmd <;>
      exact fun hc => TransResult.noConfusion hc
  | Compression cmd =>
    simp only [PrinterState.transition]
    rcases PrintCompression.from_u8 b with _ | compression <;>
      exact fun hc => TransResult.noConfusion hc
  | Magic0 =>
    simp only [PrinterState.transition]
    split <;> exact fun hc => TransResult.noConfusion hc
  | Magic1 =>
    simp only [PrinterState.transition]
    split <;> exact fun hc => TransResult.noConfusion hc
  | LenLow cmd compression =>
    exact fun hc => TransResult.noConfusion hc
  | LenHigh cmd compression len_low =>
    simp only [PrinterState.transition]
    split <;> exact fun hc => TransResult.noConfusion hc
  | CheckSum0 cmd compression payload =>
    exact fun hc => TransResult.noConfusion hc
  | CheckSum1 cmd compression payload checksum0 =>
    exact fun hc => TransResult.noConfusion hc
  | Keepalive cmd compression payload checksum checksum_expected checksum_error =>
    simp only [PrinterState.transition]
    split <;> exact fun hc => TransResult.noConfusion hc
  | Status cmd compression payload checksum checksum_expected checksum_error =>
    simp only [PrinterState.transition]
    split <;> exact fun hc => TransResult.noConfusion hc
  | Done cmd compression payload checksum checksum_expected checksum_error =>
    exact fun hc => TransResult.noConfusion hc

/-- C10: every `Data` state reachable from `Magic0` has
`1 ≤ index ≤ len` and a payload of exactly `len` elements, so the write at
position `len - index` is in bounds and the `Data` arm never panics. -/
theorem C10_data_inv (inputs : List Nat) (cmd : PrintCommand)
    (compression : PrintCompression) (len index : Nat) (payload : List Nat)
    (h : foldTransition .Magic0 inputs
      = .ok (.Data cmd compression len index payload)) :
    (1 ≤ index ∧ index ≤ len ∧ payload.length = len)
    ∧ ∀ b, (PrinterState.Data cmd compression len index payload).transition b
        ≠ .panic := by
  have hinv : stateInv (.Data cmd compression len index payload) :=
    foldTransition_inv inputs .Magic0 _ trivial h
  exact ⟨hinv, fun b => inv_no_panic hinv b⟩

/-- Witness for C10: the header `88 33 01 00 02 00` reaches
`Data Init Uncompressed 2 2 [0, 0]`. -/
theorem C10_witness :
    (1 ≤ 2 ∧ 2 ≤ 2 ∧ ([0, 0] : List Nat).length = 2)
    ∧ (PrinterState.Data .Init .Uncompressed 2 2 [0, 0]).transition 0x7
        ≠ .panic :=
  have h := C10_data_inv [0x88, 0x33, 0x01, 0x00, 0x02, 0x00] .Init
    .Uncompressed 2 2 [0, 0] (by rfl)
  ⟨h.1, h.2 0x7⟩

end GBLink
